import Mathlib

/-!
Verification of the DeepCAD constitutive-law integration core and of the
contact/DEM plumbing around it.

This file gives a shallow embedding, over exact rational arithmetic, of

* the von Mises kinematic-plasticity constitutive-law integration pipeline
  (elastic predictor, Newton-Raphson return mapping, Finalize commit,
  internal-variable container and capability queries) described in the
  repository specification.  The C++ implementation of these classes is not
  part of the source tree given here (only its test file is), so these
  definitions are modelled from the specification, and

* the DEM rigid-edge contact-geometry routines (RigidEdge2D), the DEM
  continuum-constitutive-law base class, and the contact builder-and-solver
  DoF-fixing pass (BaseSetUpSystem), which are embedded directly from the
  C++ sources.

Machine floating-point doubles are modelled as exact rationals; square roots
appearing in the code (the von Mises equivalent stress) are handled by passing
the root as a parameter constrained by the predicate IsVMNorm (the inputs of
interest all have exact rational roots).
-/

namespace DeepCAD

/-- A symmetric 3D tensor in Voigt form (6 components: xx, yy, zz, xy, yz, xz),
with exact rational entries standing for the C++ doubles. -/
structure V6 where
  c1 : ℚ
  c2 : ℚ
  c3 : ℚ
  c4 : ℚ
  c5 : ℚ
  c6 : ℚ
deriving DecidableEq, Repr

namespace V6

def add (a b : V6) : V6 := ⟨a.c1+b.c1, a.c2+b.c2, a.c3+b.c3, a.c4+b.c4, a.c5+b.c5, a.c6+b.c6⟩

def sub (a b : V6) : V6 := ⟨a.c1-b.c1, a.c2-b.c2, a.c3-b.c3, a.c4-b.c4, a.c5-b.c5, a.c6-b.c6⟩

def smul (r : ℚ) (a : V6) : V6 := ⟨r*a.c1, r*a.c2, r*a.c3, r*a.c4, r*a.c5, r*a.c6⟩

def zero : V6 := ⟨0, 0, 0, 0, 0, 0⟩

instance : Add V6 := ⟨V6.add⟩

instance : Sub V6 := ⟨V6.sub⟩

instance : SMul ℚ V6 := ⟨V6.smul⟩

instance : Zero V6 := ⟨V6.zero⟩

@[simp] theorem add_c1 (a b : V6) : (a + b).c1 = a.c1 + b.c1 := rfl

@[simp] theorem add_c2 (a b : V6) : (a + b).c2 = a.c2 + b.c2 := rfl

@[simp] theorem add_c3 (a b : V6) : (a + b).c3 = a.c3 + b.c3 := rfl

@[simp] theorem add_c4 (a b : V6) : (a + b).c4 = a.c4 + b.c4 := rfl

@[simp] theorem add_c5 (a b : V6) : (a + b).c5 = a.c5 + b.c5 := rfl

@[simp] theorem add_c6 (a b : V6) : (a + b).c6 = a.c6 + b.c6 := rfl

@[simp] theorem sub_c1 (a b : V6) : (a - b).c1 = a.c1 - b.c1 := rfl

@[simp] theorem sub_c2 (a b : V6) : (a - b).c2 = a.c2 - b.c2 := rfl

@[simp] theorem sub_c3 (a b : V6) : (a - b).c3 = a.c3 - b.c3 := rfl

@[simp] theorem sub_c4 (a b : V6) : (a - b).c4 = a.c4 - b.c4 := rfl

@[simp] theorem sub_c5 (a b : V6) : (a - b).c5 = a.c5 - b.c5 := rfl

@[simp] theorem sub_c6 (a b : V6) : (a - b).c6 = a.c6 - b.c6 := rfl

@[simp] theorem smul_c1 (r : ℚ) (a : V6) : (r • a).c1 = r * a.c1 := rfl

@[simp] theorem smul_c2 (r : ℚ) (a : V6) : (r • a).c2 = r * a.c2 := rfl

@[simp] theorem smul_c3 (r : ℚ) (a : V6) : (r • a).c3 = r * a.c3 := rfl

@[simp] theorem smul_c4 (r : ℚ) (a : V6) : (r • a).c4 = r * a.c4 := rfl

@[simp] theorem smul_c5 (r : ℚ) (a : V6) : (r • a).c5 = r * a.c5 := rfl

@[simp] theorem smul_c6 (r : ℚ) (a : V6) : (r • a).c6 = r * a.c6 := rfl

@[simp] theorem zero_c1 : (0 : V6).c1 = 0 := rfl

@[simp] theorem zero_c2 : (0 : V6).c2 = 0 := rfl

@[simp] theorem zero_c3 : (0 : V6).c3 = 0 := rfl

@[simp] theorem zero_c4 : (0 : V6).c4 = 0 := rfl

@[simp] theorem zero_c5 : (0 : V6).c5 = 0 := rfl

@[simp] theorem zero_c6 : (0 : V6).c6 = 0 := rfl

@[ext] theorem ext {a b : V6} (h1 : a.c1 = b.c1) (h2 : a.c2 = b.c2) (h3 : a.c3 = b.c3)
    (h4 : a.c4 = b.c4) (h5 : a.c5 = b.c5) (h6 : a.c6 = b.c6) : a = b := by
  cases a; cases b; simp_all

end V6

/-- Modelled from the spec: shear modulus of the linear elastic predictor,
mu = E / (2(1+nu)). -/
def shearMod (E nu : ℚ) : ℚ := E / (2*(1+nu))

/-- Modelled from the spec: Lame constant of the linear elastic predictor,
lambda = E nu / ((1+nu)(1-2 nu)). -/
def lameLambda (E nu : ℚ) : ℚ := E * nu / ((1+nu)*(1-2*nu))

/-- Modelled from the spec: the linear/hyperelastic elastic predictor, the
isotropic elasticity tensor applied to a Voigt strain (engineering shear
components), shared by the small-strain (Cauchy) law and the finite-strain
(St. Venant-Kirchhoff, PK2 on Green-Lagrange strain) law. -/
def elasticPredictor (E nu : ℚ) (eps : V6) : V6 :=
  let lam := lameLambda E nu
  let mu := shearMod E nu
  let tr := eps.c1 + eps.c2 + eps.c3
  ⟨lam*tr + 2*mu*eps.c1, lam*tr + 2*mu*eps.c2, lam*tr + 2*mu*eps.c3,
   mu*eps.c4, mu*eps.c5, mu*eps.c6⟩

/-- Modelled from the spec: Green-Lagrange strain (FᵀF - I)/2 of a diagonal
deformation gradient F = diag(f1, f2, f3), the strain measure of the
finite-strain (PK2) formulation. -/
def greenStrainDiag (f1 f2 f3 : ℚ) : V6 :=
  ⟨(f1^2 - 1)/2, (f2^2 - 1)/2, (f3^2 - 1)/2, 0, 0, 0⟩

/-- Deviatoric part of a Voigt stress tensor. -/
def devPart (s : V6) : V6 :=
  let p := (s.c1 + s.c2 + s.c3) / 3
  ⟨s.c1 - p, s.c2 - p, s.c3 - p, s.c4, s.c5, s.c6⟩

/-- Second deviatoric stress invariant J2 of a Voigt stress tensor
(tensor components, shear entries counted twice). -/
def J2inv (s : V6) : ℚ :=
  let d := devPart s
  (d.c1^2 + d.c2^2 + d.c3^2)/2 + d.c4^2 + d.c5^2 + d.c6^2

/-- The statement that q is the von Mises equivalent stress of s: the
nonnegative square root of 3 J2(s).  The square root is irrational in
general, so it is carried as a constrained parameter. -/
def IsVMNorm (s : V6) (q : ℚ) : Prop := q^2 = 3 * J2inv s ∧ 0 ≤ q

/-- Modelled from the spec: trial yield value of the von Mises yield
surface, f_trial = q_rel - sigma_y, where q_rel is the von Mises norm of
the relative (trial minus back-stress) stress and sigma_y the yield
stress. -/
def trialYield (q sigmaY : ℚ) : ℚ := q - sigmaY

/-- Modelled from the spec: the plastic flow direction (3/(2q)) s_dev of the
von Mises yield surface and plastic potential (associative plasticity),
evaluated at the relative trial stress. -/
def flowDirection (srel : V6) (q : ℚ) : V6 := (3/(2*q)) • devPart srel

/-- Modelled from the spec: consistency residual of the von Mises radial
return with linear kinematic hardening of modulus Hk: along the flow
direction the relative equivalent stress decreases by (3 mu + Hk) dlam,
so r(dlam) = q - (3 mu + Hk) dlam - sigma_y. -/
def consistencyResidual (mu Hk sigmaY q dlam : ℚ) : ℚ :=
  q - (3*mu + Hk)*dlam - sigmaY

/-- Modelled from the spec: the Newton-Raphson sub-iteration on the plastic
multiplier dlam: stop when the residual is below tolerance in absolute
value, update dlam by the Newton step with derivative -(3 mu + Hk), and
report failure (none) upward when the iteration cap is exhausted without
convergence. -/
def nrLoop (mu Hk sigmaY tol q : ℚ) : ℕ → ℚ → Option ℚ
  | 0, _ => none
  | fuel+1, dlam =>
      let r := consistencyResidual mu Hk sigmaY q dlam
      if |r| < tol then some dlam
      else nrLoop mu Hk sigmaY tol q fuel (dlam + r/(3*mu + Hk))

/-- Material constants of the kinematic-plasticity law: Young modulus,
Poisson ratio, yield stress, linear kinematic hardening modulus (the first
entry of KINEMATIC_PLASTICITY_PARAMETERS). -/
structure MatProps where
  young : ℚ
  poisson : ℚ
  yieldStress : ℚ
  kinHardening : ℚ
deriving DecidableEq, Repr

/-- Iteration cap of the Newton-Raphson return-mapping sub-iteration. -/
def iterationCap : ℕ := 100

/-- Modelled from the spec: one return-mapping integration of the von Mises
kinematic-plasticity law.  Input: material constants, current back-stress
beta, strain, the von Mises norm q of the relative trial stress (elastic
predictor minus beta; constrained elsewhere by IsVMNorm), and the
convergence tolerance.  If f_trial is at most 0 the state is elastic and
the trial stress is returned unchanged with dlam = 0 and beta unchanged;
otherwise the Newton-Raphson loop solves for dlam and stress and
back-stress are updated along the flow direction (failure of the loop
propagates as none).  Output: (updated stress, dlam, updated back-stress). -/
def integrateStressResponse (mp : MatProps) (beta : V6) (eps : V6) (q tol : ℚ) :
    Option (V6 × ℚ × V6) :=
  let sigmaTr := elasticPredictor mp.young mp.poisson eps
  let mu := shearMod mp.young mp.poisson
  if trialYield q mp.yieldStress ≤ 0 then
    some (sigmaTr, 0, beta)
  else
    match nrLoop mu mp.kinHardening mp.yieldStress tol q iterationCap 0 with
    | none => none
    | some dlam =>
        let n := flowDirection (sigmaTr - beta) q
        some (sigmaTr - (2*mu*dlam) • n, dlam, beta + (2/3*mp.kinHardening*dlam) • n)

/-- The per-integration-point persisted history of the law: accumulated
plastic strain, back-stress (kinematic hardening), plastic dissipation and
the damage scalar. -/
structure InternalState where
  plasticStrain : V6
  backStress : V6
  plasticDissipation : ℚ
  damage : ℚ
deriving DecidableEq, Repr

/-- The internal state at first use: all history variables start at zero. -/
def initialState : InternalState := ⟨0, 0, 0, 0⟩

/-- Modelled from the spec: CalculateMaterialResponse is a pure trial
computation; it returns the integrated stress together with the internal
state, which it must not change. -/
def calculateMaterialResponse (mp : MatProps) (st : InternalState) (eps : V6) (q tol : ℚ) :
    Option (V6 × InternalState) :=
  (integrateStressResponse mp st.backStress eps q tol).map (fun out => (out.1, st))

/-- Modelled from the spec: the commit performed by a converged plastic
Finalize: plastic strain is incremented, the back-stress replaced, the
plastic dissipation incremented, and the damage scalar updated with any
computed decrease clamped to the previous value. -/
def commitState (st : InternalState) (dPlastic : V6) (betaNew : V6) (wInc dComputed : ℚ) :
    InternalState :=
  ⟨st.plasticStrain + dPlastic, betaNew, st.plasticDissipation + wInc, max st.damage dComputed⟩

/-- Modelled from the spec: FinalizeMaterialResponse commits the step to the
internal state.  In the elastic branch (f_trial at most 0) the internal
variables are unchanged; in the plastic branch the converged plastic strain
increment, back-stress, plastic dissipation increment (plastic work
dlam sigma_y) and the damage value dComputed produced by the hardening
curve are committed. -/
def finalizeMaterialResponse (mp : MatProps) (st : InternalState) (eps : V6)
    (q tol dComputed : ℚ) : Option InternalState :=
  match integrateStressResponse mp st.backStress eps q tol with
  | none => none
  | some out =>
      if trialYield q mp.yieldStress ≤ 0 then some st
      else
        let n := flowDirection (elasticPredictor mp.young mp.poisson eps - st.backStress) q
        some (commitState st (out.2.1 • n) out.2.2 (out.2.1 * mp.yieldStress) dComputed)

/-- A sequence of Finalize calls on one constitutive-law instance, each step
carrying its strain, the von Mises norm of its relative trial stress, and
the damage value computed by the hardening curve for that step; a failed
step propagates as none. -/
def finalizeSeq (mp : MatProps) (tol : ℚ) : InternalState → List (V6 × ℚ × ℚ) →
    Option InternalState
  | st, [] => some st
  | st, step :: rest =>
      match finalizeMaterialResponse mp st step.1 step.2.1 tol step.2.2 with
      | none => none
      | some st1 => finalizeSeq mp tol st1 rest

/-- Modelled from the spec: the history container owning the
INTERNAL_VARIABLES vector of the law. -/
structure VariableContainer where
  internalVariables : List ℚ
deriving DecidableEq, Repr

/-- Modelled from the spec: SetValue(INTERNAL_VARIABLES, v) overwrites the
owned vector with the given one. -/
def setInternalVariables (c : VariableContainer) (v : List ℚ) : VariableContainer :=
  { internalVariables := v }

/-- Modelled from the spec: GetValue(INTERNAL_VARIABLES, out) resizes the
caller buffer to the owned length and copies the owned values, whatever the
previous length and contents of the buffer were (no silent truncation); the
result is therefore exactly the owned vector. -/
def getInternalVariables (c : VariableContainer) (buffer : List ℚ) : List ℚ :=
  c.internalVariables

/-- The variables involved in the capability queries of the
kinematic-plasticity law. -/
inductive CLVariable
  | uniaxialStress
  | equivalentPlasticStrain
  | backStressVector
  | backStressTensor
  | plasticDissipation
  | plasticStrainVector
  | plasticStrainTensor
  | internalVariables
deriving DecidableEq, Repr

/-- Modelled from the spec: the Has(VARIABLE) capability query of the
kinematic-plasticity law.  It is a total function (a query never throws):
it answers true exactly on the internal variables the law stores and false
on derived, on-demand quantities. -/
def hasVariable : CLVariable → Bool
  | .plasticDissipation => true
  | .plasticStrainVector => true
  | .plasticStrainTensor => true
  | .internalVariables => true
  | _ => false

/-! Concrete data of the end-to-end kinematic-plasticity test: material
constants, the uniaxial compressive strain, the exact von Mises norms of the
two trial stresses, and the expected stress vectors with their tolerances. -/

/-- Material constants of the end-to-end test: Young modulus 2.069e11,
Poisson ratio 0.29, yield stress 1.5e6, kinematic hardening modulus 15.0e9. -/
def testMatProps : MatProps := ⟨206900000000, 29/100, 1500000, 15000000000⟩

/-- The uniaxial compressive strain of the test: eps_zz = -1.1e-4, all other
components zero. -/
def testStrainSmall : V6 := ⟨0, 0, -11/100000, 0, 0, 0⟩

/-- The Green-Lagrange strain of the corresponding deformation gradient
diag(1, 1, 1 - 1.1e-4) of the finite-strain test. -/
def testStrainFinite : V6 := greenStrainDiag 1 1 (1 - 11/100000)

/-- Exact von Mises norm of the small-strain trial stress. -/
def qTrialSmall : ℚ := 2275900000/129

/-- Exact von Mises norm of the finite-strain trial stress. -/
def qTrialFinite : ℚ := 22757748255/1290

/-- Convergence tolerance used by the return mapping. -/
def clTolerance : ℚ := 1/10000

/-- Expected stress of the small-strain test (checked with relative
tolerance 1.0e-4). -/
def expectedSmall : V6 := ⟨-17246900, -17246900, -19694300, 0, 0, 0⟩

/-- Expected stress of the finite-strain test (checked with absolute
tolerance 0.1e6). -/
def expectedFinite : V6 := ⟨-17247700, -17247700, -19695100, 0, 0, 0⟩

/-- Relative nearness of two values, as in the vector check of the test. -/
def RelNear (a b tolr : ℚ) : Prop := |a - b| ≤ tolr * |b|

/-- Absolute nearness of two values, as in the vector check of the test. -/
def AbsNear (a b tolr : ℚ) : Prop := |a - b| ≤ tolr

end DeepCAD

namespace DeepCAD

/-! Embedding of the DEM contact-geometry code (RigidEdge.cpp and
DEM_continuum_constitutive_law.h), taken directly from the sources. -/

/-- A 3D vector with exact rational entries. -/
structure V3 where
  x : ℚ
  y : ℚ
  z : ℚ
deriving DecidableEq, Repr

namespace V3

def add (a b : V3) : V3 := ⟨a.x+b.x, a.y+b.y, a.z+b.z⟩

def smul (r : ℚ) (a : V3) : V3 := ⟨r*a.x, r*a.y, r*a.z⟩

instance : Add V3 := ⟨V3.add⟩

instance : SMul ℚ V3 := ⟨V3.smul⟩

end V3

/-- From DEM_continuum_constitutive_law.h, lines 63 to 67: the base-class
CalculateContactArea overload taking a Vector returns 0.0 (degenerate
default with no contact area). -/
def baseCalculateContactArea (radius otherRadius : ℚ) (v : List ℚ) : ℚ := 0

/-- From the use of GeometryFunctions::VectorLocal2Global in RigidEdge.cpp:
the local-to-global map of the orthonormal frame with rows a1, a2, a3. -/
def vectorLocal2Global (a1 a2 a3 : V3) (l : V3) : V3 :=
  l.x • a1 + l.y • a2 + l.z • a3

/-- From RigidEdge2D::Calculate (RIGID_FACE_COMPUTE_MOVEMENT), RigidEdge.cpp
lines 229 to 269: the per-node velocity of the rotating rigid face.  The
radial distance dist of the node from the rotation axis and the orthonormal
frame (u1, u2, n) built upstream by the normalize and cross-product calls
are taken as inputs (they arise from square roots); n is the normalized
rotation axis, omg the angular speed and vel the axial speed.  When
dist < 1.0e-6 the purely axial branch is taken, so the near-zero radial
vector is never normalized. -/
def nodeRotationalVelocity (n : V3) (vel omg dist : ℚ) (u1 u2 : V3) : V3 :=
  if dist < 1/1000000 then vel • n
  else vectorLocal2Global u1 u2 n ⟨0, dist*omg, vel⟩

/-- State of the weight-accumulation loop of
RigidEdge2D::ComputeConditionRelativeData: accumulated total, number of
qualifying nodes found, and the first two qualifying node indices. -/
structure ScanState where
  total : ℚ
  points : ℕ
  inode1 : ℕ
  inode2 : ℕ
deriving DecidableEq, Repr

/-- From RigidEdge2D::ComputeConditionRelativeData, RigidEdge.cpp lines 99
to 111: the loop accumulating weights above 1.0e-12, recording the first
two qualifying node indices, and breaking early once the accumulated total
is within 1.0e-12 of 1. -/
def weightScanAux : List ℚ → ℕ → ScanState → ScanState
  | [], _, s => s
  | w :: rest, idx, s =>
      let s1 : ScanState :=
        if 1/1000000000000 < w then
          let p := s.points + 1
          ⟨s.total + w, p, if p = 1 then idx else s.inode1, if p = 2 then idx else s.inode2⟩
        else s
      if |s1.total - 1| < 1/1000000000000 then s1
      else weightScanAux rest (idx+1) s1

/-- The weight-accumulation loop started on the full weight list with all
accumulators at zero. -/
def weightScan (ws : List ℚ) : ScanState := weightScanAux ws 0 ⟨0, 0, 0, 0⟩

/-- The number of weights strictly above the 1.0e-12 threshold. -/
def countQualifying : List ℚ → ℕ
  | [] => 0
  | w :: rest => (if 1/1000000000000 < w then 1 else 0) + countQualifying rest

/-- Output of RigidEdge2D::ComputeConditionRelativeData relevant here: the
updated weights and the contact type. -/
structure RelativeDataResult where
  weights : List ℚ
  contactType : ℤ
deriving DecidableEq, Repr

/-- From RigidEdge2D::ComputeConditionRelativeData, RigidEdge.cpp lines 81
to 145: after the weight scan, two qualifying nodes mean edge contact (the
two selected weights become 1-eta and eta, ContactType 2), one qualifying
node means vertex contact (weight 1.0, ContactType 3), and a failed
geometric check overrides ContactType to -1.  The results of
GeometryFunctions::EdgeCheck and VertexCheck (whether contact exists, and
the edge parameter eta written by EdgeCheck) are taken as inputs since
their code is not part of this source tree; ctIn is the incoming
ContactType, left untouched when no node qualifies. -/
def computeConditionRelativeData (wIn : List ℚ) (ctIn : ℤ)
    (edgeContact : Bool) (eta : ℚ) (vertexContact : Bool) : RelativeDataResult :=
  let s := weightScan wIn
  if s.points = 2 then
    { weights := (wIn.set s.inode1 (1-eta)).set s.inode2 eta,
      contactType := if edgeContact then 2 else -1 }
  else if s.points = 1 then
    { weights := wIn.set s.inode1 1,
      contactType := if vertexContact then 3 else -1 }
  else
    { weights := wIn, contactType := ctIn }

end DeepCAD

namespace DeepCAD

/-! Embedding of the DoF-fixing pass of
ContactResidualBasedEliminationBuilderAndSolverWithConstraints
(contact_residualbased_elimination_builder_and_solver_with_constraints.h). -/

/-- The variables a degree of freedom can carry: displacement components,
Lagrange-multiplier components, or any other variable identified by its
key. -/
inductive DofVariable
  | dispX
  | dispY
  | dispZ
  | lmX
  | lmY
  | lmZ
  | other (key : ℕ)
deriving DecidableEq, Repr

/-- A degree of freedom: owning node id, variable, and whether it is fixed. -/
structure Dof where
  node : ℕ
  dvar : DofVariable
  isFixed : Bool
deriving DecidableEq, Repr

/-- From IsLMDof, lines 561 to 571: whether the variable is a
Lagrange-multiplier component. -/
def isLMVariable : DofVariable → Bool
  | .lmX => true
  | .lmY => true
  | .lmZ => true
  | _ => false

/-- The Lagrange-multiplier key inserted by the second loop of
BaseSetUpSystem for a fixed displacement variable (none for non-displacement
variables, mirroring IsDisplacementDof and the key selection of lines 508
to 517). -/
def lmKeyOfDisp : DofVariable → Option DofVariable
  | .dispX => some .lmX
  | .dispY => some .lmY
  | .dispZ => some .lmZ
  | _ => none

/-- From the first loop of BaseSetUpSystem, lines 492 to 496: the node set
of the map holds exactly the nodes owning some Lagrange-multiplier dof. -/
def nodeHasLM (dofs : List Dof) (nid : ℕ) : Bool :=
  dofs.any fun d => d.node == nid && isLMVariable d.dvar

/-- From the second loop of BaseSetUpSystem, lines 504 to 520: whether the
Lagrange-multiplier key v is inserted into the per-node set of node nid,
that is, whether some fixed displacement dof at that node has v as its
corresponding Lagrange-multiplier variable. -/
def lmKeyMarked (dofs : List Dof) (nid : ℕ) (v : DofVariable) : Bool :=
  dofs.any fun d => d.node == nid && d.isFixed && (lmKeyOfDisp d.dvar == some v)

/-- From the third loop of BaseSetUpSystem, lines 523 to 534: a free dof at
a node owning Lagrange-multiplier dofs, whose variable key is in the
per-node set, gets fixed; every other dof is left as it is. -/
def setUpTransformDof (dofs : List Dof) (d : Dof) : Dof :=
  if !d.isFixed && nodeHasLM dofs d.node && lmKeyMarked dofs d.node d.dvar then
    { d with isFixed := true }
  else d

/-- From ContactResidualBasedEliminationBuilderAndSolverWithConstraints::
BaseSetUpSystem, lines 479 to 537: the DoF-fixing pass over the dof set
(the trailing call to the base-class SetUpSystem, which only assigns
equation ids and whose code is not part of this source tree, is omitted). -/
def baseSetUpSystem (dofs : List Dof) : List Dof := dofs.map (setUpTransformDof dofs)

end DeepCAD

namespace DeepCAD

/-! Helper lemmas about the Newton-Raphson sub-iteration. -/

theorem nrLoop_zero_fuel (mu Hk sigmaY tol q d : ℚ) :
    nrLoop mu Hk sigmaY tol q 0 d = none := rfl

theorem nrLoop_step_conv {mu Hk sigmaY tol q d : ℚ} (fuel : ℕ)
    (h : |consistencyResidual mu Hk sigmaY q d| < tol) :
    nrLoop mu Hk sigmaY tol q (fuel+1) d = some d := by
  simp [nrLoop, h]

theorem nrLoop_step_cont {mu Hk sigmaY tol q d : ℚ} (fuel : ℕ)
    (h : ¬ |consistencyResidual mu Hk sigmaY q d| < tol) :
    nrLoop mu Hk sigmaY tol q (fuel+1) d =
      nrLoop mu Hk sigmaY tol q fuel (d + consistencyResidual mu Hk sigmaY q d / (3*mu + Hk)) := by
  simp [nrLoop, h]

/-- One Newton step from the affine consistency residual lands exactly on
the root. -/
theorem consistencyResidual_after_step {mu Hk sigmaY q : ℚ} (d : ℚ)
    (hne : 3*mu + Hk ≠ 0) :
    consistencyResidual mu Hk sigmaY q (d + consistencyResidual mu Hk sigmaY q d / (3*mu + Hk)) = 0 := by
  unfold consistencyResidual
  field_simp
  ring

/-- Soundness of the Newton-Raphson loop: a returned multiplier satisfies
the residual tolerance, and it is either the unchanged start value or an
exact root of the residual. -/
theorem nrLoop_sound {mu Hk sigmaY tol q : ℚ} (hne : 3*mu + Hk ≠ 0) :
    ∀ (fuel : ℕ) (d0 d : ℚ), nrLoop mu Hk sigmaY tol q fuel d0 = some d →
      |consistencyResidual mu Hk sigmaY q d| < tol ∧
      (d = d0 ∨ consistencyResidual mu Hk sigmaY q d = 0) := by
  intro fuel
  induction fuel with
  | zero => intro d0 d h; simp [nrLoop] at h
  | succ k ih =>
      intro d0 d h
      simp only [nrLoop] at h
      by_cases hc : |consistencyResidual mu Hk sigmaY q d0| < tol
      · rw [if_pos hc] at h
        obtain rfl : d0 = d := by simpa using h
        exact ⟨hc, Or.inl rfl⟩
      · rw [if_neg hc] at h
        obtain ⟨hb, hd⟩ := ih _ _ h
        refine ⟨hb, Or.inr ?_⟩
        rcases hd with rfl | hz
        · exact consistencyResidual_after_step d0 hne
        · exact hz

/-- For the affine residual the loop converges in exactly two iterations
whenever the start value is not already converged. -/
theorem nrLoop_converges {mu Hk sigmaY tol q d0 : ℚ} (fuel : ℕ)
    (hne : 3*mu + Hk ≠ 0) (htol : 0 < tol)
    (h0 : ¬ |consistencyResidual mu Hk sigmaY q d0| < tol) :
    nrLoop mu Hk sigmaY tol q (fuel+1+1) d0 =
      some (d0 + consistencyResidual mu Hk sigmaY q d0 / (3*mu + Hk)) := by
  rw [nrLoop_step_cont _ h0]
  refine nrLoop_step_conv fuel ?_
  rw [consistencyResidual_after_step d0 hne]
  simpa using htol

/-- C2: for every state whose trial yield value satisfies f_trial ≤ 0
(elastic state), the integrator returns exactly the elastic predictor
(trial) stress with zero plastic multiplier and unchanged back-stress, the
trial computation returns that stress with the internal state unchanged,
and Finalize leaves every internal variable unchanged. -/
theorem elastic_trial_returned_exactly (mp : MatProps) (st : InternalState) (eps : V6)
    (q tol dComputed : ℚ) (h : trialYield q mp.yieldStress ≤ 0) :
    integrateStressResponse mp st.backStress eps q tol =
      some (elasticPredictor mp.young mp.poisson eps, 0, st.backStress) ∧
    calculateMaterialResponse mp st eps q tol =
      some (elasticPredictor mp.young mp.poisson eps, st) ∧
    finalizeMaterialResponse mp st eps q tol dComputed = some st := by
  refine ⟨?_, ?_, ?_⟩ <;>
    simp [integrateStressResponse, calculateMaterialResponse, finalizeMaterialResponse, h]

/-- Shared helper: concrete evaluation of the trial computation at the zero
elastic state. -/
theorem calculate_elastic_zero_eval :
    calculateMaterialResponse testMatProps initialState 0 0 clTolerance =
      some (elasticPredictor testMatProps.young testMatProps.poisson 0, initialState) := by
  have h : trialYield 0 testMatProps.yieldStress ≤ 0 := by
    norm_num [trialYield, testMatProps]
  simp [calculateMaterialResponse, integrateStressResponse, h]

/-- Witness for C2 at the zero strain state with q = 0. -/
theorem elastic_trial_returned_exactly_witness :
    trialYield 0 testMatProps.yieldStress ≤ 0 ∧
    finalizeMaterialResponse testMatProps initialState 0 0 clTolerance 0 = some initialState := by
  have h : trialYield 0 testMatProps.yieldStress ≤ 0 := by
    norm_num [trialYield, testMatProps]
  exact ⟨h, (elastic_trial_returned_exactly testMatProps initialState 0 0 clTolerance 0 h).2.2⟩

/-- C4: the trial computation never mutates the internal state: a successful
call returns the state it was given, and repeating the call with identical
input (in particular from the state returned by the first call) yields the
identical output. -/
theorem calculate_material_response_pure (mp : MatProps) (st : InternalState) (eps : V6)
    (q tol : ℚ) (sig : V6) (st1 : InternalState)
    (h : calculateMaterialResponse mp st eps q tol = some (sig, st1)) :
    st1 = st ∧ calculateMaterialResponse mp st1 eps q tol = some (sig, st1) := by
  have hst : st1 = st := by
    unfold calculateMaterialResponse at h
    cases hi : integrateStressResponse mp st.backStress eps q tol with
    | none => rw [hi] at h; simp at h
    | some out => rw [hi] at h; simp at h; exact h.2.symm
  subst hst
  exact ⟨rfl, h⟩

/-- Witness for C4 at the zero elastic state. -/
theorem calculate_material_response_pure_witness :
    calculateMaterialResponse testMatProps initialState 0 0 clTolerance =
      some (elasticPredictor testMatProps.young testMatProps.poisson 0, initialState) ∧
    calculateMaterialResponse testMatProps initialState 0 0 clTolerance =
      some (elasticPredictor testMatProps.young testMatProps.poisson 0, initialState) := by
  have h := calculate_elastic_zero_eval
  have h2 := calculate_material_response_pure testMatProps initialState 0 0 clTolerance
    (elasticPredictor testMatProps.young testMatProps.poisson 0) initialState h
  exact ⟨h, h2.2⟩

/-- The stored length-7 internal-variables vector of the round-trip test. -/
def sevenTestVector : List ℚ := [0, 1/10, 2/10, 3/10, 4/10, 5/10, 6/10]

/-- C6: SetValue(INTERNAL_VARIABLES, v) followed by GetValue on the same
instance returns the stored vector itself, resized to the stored length
regardless of the caller buffer (no silent truncation); in particular the
stored length-7 vector [0.0, 0.1, ..., 0.6] reads back with length 7 and
every entry within 1e-5 of the stored one. -/
theorem internal_variables_roundtrip (c : VariableContainer) (v buffer : List ℚ) :
    getInternalVariables (setInternalVariables c v) buffer = v ∧
    (getInternalVariables (setInternalVariables c v) buffer).length = v.length ∧
    (getInternalVariables (setInternalVariables c sevenTestVector) buffer).length = 7 ∧
    ∀ i : ℕ, |(getInternalVariables (setInternalVariables c sevenTestVector) buffer).getD i 0
        - sevenTestVector.getD i 0| ≤ 1/100000 := by
  refine ⟨rfl, rfl, rfl, fun i => ?_⟩
  simp [getInternalVariables, setInternalVariables]

/-- C7: the Has capability query answers true exactly on the stored internal
variables (PLASTIC_DISSIPATION, PLASTIC_STRAIN_VECTOR, PLASTIC_STRAIN_TENSOR,
INTERNAL_VARIABLES) and false on the derived on-demand quantities; being a
total Boolean function it never throws. -/
theorem has_variable_capability :
    ∀ v : CLVariable, hasVariable v = true ↔
      (v = CLVariable.plasticDissipation ∨ v = CLVariable.plasticStrainVector ∨
       v = CLVariable.plasticStrainTensor ∨ v = CLVariable.internalVariables) := by
  intro v
  cases v <;> simp [hasVariable]

end DeepCAD

namespace DeepCAD

/-- Helper: in an elastic state, Finalize returns the internal state
unchanged. -/
theorem finalize_elastic_id (mp : MatProps) (st : InternalState) (eps : V6)
    (q tol dC : ℚ) (h : trialYield q mp.yieldStress ≤ 0) :
    finalizeMaterialResponse mp st eps q tol dC = some st := by
  simp [finalizeMaterialResponse, integrateStressResponse, h]

/-- Helper: in a plastic state a successful integration makes Finalize
commit the corresponding increments. -/
theorem finalize_plastic_commit (mp : MatProps) (st : InternalState) (eps : V6)
    (q tol dC : ℚ) (hpl : ¬ trialYield q mp.yieldStress ≤ 0)
    (sig : V6) (dlam : ℚ) (bn : V6)
    (hint : integrateStressResponse mp st.backStress eps q tol = some (sig, dlam, bn)) :
    finalizeMaterialResponse mp st eps q tol dC =
      some (commitState st
        (dlam • flowDirection (elasticPredictor mp.young mp.poisson eps - st.backStress) q)
        bn (dlam * mp.yieldStress) dC) := by
  simp only [finalizeMaterialResponse]
  rw [hint]
  simp [hpl]

/-- Admissibility of the material constants and tolerance for the return
mapping: nonnegative yield stress, positive algorithmic modulus, positive
tolerance. -/
def Admissible (mp : MatProps) (tol : ℚ) : Prop :=
  0 ≤ mp.yieldStress ∧ 0 < 3 * shearMod mp.young mp.poisson + mp.kinHardening ∧ 0 < tol

/-- Helper: the plastic multiplier returned by a successful integration is
nonnegative. -/
theorem integrate_dlam_nonneg (mp : MatProps) (beta eps : V6) (q tol : ℚ)
    (hpos : 0 < 3 * shearMod mp.young mp.poisson + mp.kinHardening)
    (sig : V6) (dlam : ℚ) (bn : V6)
    (hint : integrateStressResponse mp beta eps q tol = some (sig, dlam, bn)) :
    0 ≤ dlam := by
  by_cases he : trialYield q mp.yieldStress ≤ 0
  · simp [integrateStressResponse, he] at hint
    obtain ⟨-, h2, -⟩ := hint
    linarith [h2.le, h2.ge]
  · cases hn : nrLoop (shearMod mp.young mp.poisson) mp.kinHardening mp.yieldStress tol
        q iterationCap 0 with
    | none => simp [integrateStressResponse, he, hn] at hint
    | some d =>
        simp [integrateStressResponse, he, hn] at hint
        obtain ⟨-, h2, -⟩ := hint
        obtain ⟨-, hd⟩ := nrLoop_sound (ne_of_gt hpos) iterationCap 0 d hn
        rcases hd with rfl | hz
        · linarith [h2.le, h2.ge]
        · subst h2
          unfold consistencyResidual at hz
          unfold trialYield at he
          nlinarith

/-- Helper: one successful Finalize call never decreases the damage scalar
or the plastic dissipation. -/
theorem finalize_step_monotone (mp : MatProps) (tol : ℚ) (hadm : Admissible mp tol)
    (st : InternalState) (eps : V6) (q dC : ℚ) (st1 : InternalState)
    (h : finalizeMaterialResponse mp st eps q tol dC = some st1) :
    st.damage ≤ st1.damage ∧ st.plasticDissipation ≤ st1.plasticDissipation := by
  obtain ⟨hsy, hpos, htol⟩ := hadm
  by_cases he : trialYield q mp.yieldStress ≤ 0
  · rw [finalize_elastic_id mp st eps q tol dC he] at h
    obtain rfl : st = st1 := by simpa using h
    exact ⟨le_refl _, le_refl _⟩
  · cases hint : integrateStressResponse mp st.backStress eps q tol with
    | none => rw [finalizeMaterialResponse, hint] at h; simp at h
    | some out =>
        obtain ⟨sig, dlam, bn⟩ := out
        rw [finalize_plastic_commit mp st eps q tol dC he sig dlam bn hint] at h
        have hd : 0 ≤ dlam := integrate_dlam_nonneg mp st.backStress eps q tol hpos sig dlam bn hint
        obtain rfl : commitState st
            (dlam • flowDirection (elasticPredictor mp.young mp.poisson eps - st.backStress) q)
            bn (dlam * mp.yieldStress) dC = st1 := by simpa using h
        refine ⟨le_max_left _ _, ?_⟩
        have : 0 ≤ dlam * mp.yieldStress := mul_nonneg hd hsy
        simp only [commitState]
        linarith

/-- Helper: monotonicity of damage and dissipation over a whole sequence of
Finalize calls. -/
theorem finalizeSeq_monotone (mp : MatProps) (tol : ℚ) (hadm : Admissible mp tol) :
    ∀ (steps : List (V6 × ℚ × ℚ)) (st st' : InternalState),
      finalizeSeq mp tol st steps = some st' →
      st.damage ≤ st'.damage ∧ st.plasticDissipation ≤ st'.plasticDissipation := by
  intro steps
  induction steps with
  | nil =>
      intro st st' h
      obtain rfl : st = st' := by simpa [finalizeSeq] using h
      exact ⟨le_refl _, le_refl _⟩
  | cons s rest ih =>
      intro st st' h
      simp only [finalizeSeq] at h
      cases hf : finalizeMaterialResponse mp st s.1 s.2.1 tol s.2.2 with
      | none => rw [hf] at h; simp at h
      | some st1 =>
          rw [hf] at h
          simp only [] at h
          have h1 := finalize_step_monotone mp tol hadm st s.1 s.2.1 s.2.2 st1 hf
          have h2 := ih st1 st' h
          exact ⟨le_trans h1.1 h2.1, le_trans h1.2 h2.2⟩

/-- C3: across any sequence of Finalize calls the damage scalar and the
plastic dissipation are monotonically non-decreasing, and the Finalize
commit clamps any computed decrease of damage to the previous value. -/
theorem damage_dissipation_monotone (mp : MatProps) (tol : ℚ)
    (hadm : Admissible mp tol) (steps : List (V6 × ℚ × ℚ)) (st st' : InternalState)
    (h : finalizeSeq mp tol st steps = some st') :
    st.damage ≤ st'.damage ∧ st.plasticDissipation ≤ st'.plasticDissipation ∧
    ∀ (s : InternalState) (dn bn : V6) (w dC : ℚ),
      s.damage ≤ (commitState s dn bn w dC).damage ∧
      (dC ≤ s.damage → (commitState s dn bn w dC).damage = s.damage) := by
  obtain ⟨h1, h2⟩ := finalizeSeq_monotone mp tol hadm steps st st' h
  refine ⟨h1, h2, fun s dn bn w dC => ⟨le_max_left _ _, fun hle => max_eq_left hle⟩⟩

/-- Witness for C3: a one-step elastic sequence at the test material. -/
theorem damage_dissipation_monotone_witness :
    Admissible testMatProps clTolerance ∧
    finalizeSeq testMatProps clTolerance initialState [(0, 0, 0)] = some initialState ∧
    initialState.damage ≤ initialState.damage := by
  have hadm : Admissible testMatProps clTolerance := by
    refine ⟨by norm_num [testMatProps], ?_, by norm_num [clTolerance]⟩
    norm_num [testMatProps, shearMod]
  have helas : trialYield 0 testMatProps.yieldStress ≤ 0 := by
    norm_num [trialYield, testMatProps]
  have hseq : finalizeSeq testMatProps clTolerance initialState [(0, 0, 0)] =
      some initialState := by
    simp only [finalizeSeq]
    rw [finalize_elastic_id testMatProps initialState 0 0 clTolerance 0 helas]
  exact ⟨hadm, hseq, (damage_dissipation_monotone testMatProps clTolerance hadm
    [(0, 0, 0)] initialState initialState hseq).1⟩

end DeepCAD

namespace DeepCAD

/-- Helper: subtracting a multiple of the deviator scales the deviatoric
invariant quadratically. -/
theorem J2inv_shrink (k : ℚ) (s : V6) :
    3 * J2inv (s - k • devPart s) = (1-k)^2 * (3 * J2inv s) := by
  simp only [J2inv, devPart, V6.sub_c1, V6.sub_c2, V6.sub_c3, V6.sub_c4, V6.sub_c5,
    V6.sub_c6, V6.smul_c1, V6.smul_c2, V6.smul_c3, V6.smul_c4, V6.smul_c5, V6.smul_c6]
  ring

/-- Helper: a radial correction along the flow direction is a multiple of
the deviator. -/
theorem radial_correction_eq (s : V6) (q c : ℚ) :
    s - c • flowDirection s q = s - (3*c/(2*q)) • devPart s := by
  ext <;> simp [flowDirection] <;> ring

/-- Helper: the squared von Mises norm after a radial correction of size c
along the flow direction is (q - 3c/2)^2. -/
theorem vm_after_radial {s : V6} {q : ℚ} (hq : q^2 = 3 * J2inv s) (hq0 : q ≠ 0) (c : ℚ) :
    3 * J2inv (s - c • flowDirection s q) = (q - 3*c/2)^2 := by
  rw [radial_correction_eq, J2inv_shrink, ← hq]
  field_simp
  ring

/-- Helper: a nonnegative number whose square equals a square is the
absolute value. -/
theorem nonneg_sq_eq_abs {x y : ℚ} (hx : 0 ≤ x) (h : x^2 = y^2) : x = |y| := by
  have habs : x^2 = |y|^2 := by rw [h, sq_abs]
  have h0 : 0 ≤ |y| := abs_nonneg y
  have hfac : (x - |y|) * (x + |y|) = 0 := by linear_combination habs
  rcases mul_eq_zero.mp hfac with h1 | h1
  · linarith
  · linarith

/-- C5: the Newton-Raphson return mapping stops when the consistency
residual is below tolerance or when the iteration count exceeds the fixed
cap of 100; an exhausted cap yields none, which propagates upward out of the
integrator instead of any stress; and every converged plastic correction
leaves the updated stress on the yield surface within tolerance: any von
Mises norm of the updated relative stress satisfies |f| < tolerance. -/
theorem return_mapping_convergence_contract (mp : MatProps) (beta eps : V6) (q tol : ℚ)
    (hq : IsVMNorm (elasticPredictor mp.young mp.poisson eps - beta) q)
    (hpl : ¬ trialYield q mp.yieldStress ≤ 0)
    (hsy : 0 ≤ mp.yieldStress)
    (hpos : 0 < 3 * shearMod mp.young mp.poisson + mp.kinHardening) (htol : 0 < tol) :
    iterationCap = 100 ∧
    (∀ d0 : ℚ,
      nrLoop (shearMod mp.young mp.poisson) mp.kinHardening mp.yieldStress tol q 0 d0 = none) ∧
    (nrLoop (shearMod mp.young mp.poisson) mp.kinHardening mp.yieldStress tol q
        iterationCap 0 = none →
      integrateStressResponse mp beta eps q tol = none) ∧
    (∀ (sig : V6) (dlam : ℚ) (bn : V6),
      integrateStressResponse mp beta eps q tol = some (sig, dlam, bn) →
      ∀ q2 : ℚ, IsVMNorm (sig - bn) q2 → |trialYield q2 mp.yieldStress| < tol) := by
  have hqpos : 0 < q := by
    unfold trialYield at hpl
    push_neg at hpl
    linarith
  refine ⟨rfl, fun d0 => rfl, ?_, ?_⟩
  · intro hn
    simp [integrateStressResponse, hpl, hn]
  · intro sig dlam bn hint q2 hq2
    cases hn : nrLoop (shearMod mp.young mp.poisson) mp.kinHardening mp.yieldStress tol q
        iterationCap 0 with
    | none => simp [integrateStressResponse, hpl, hn] at hint
    | some d =>
        simp [integrateStressResponse, hpl, hn] at hint
        obtain ⟨hsig, hd, hbn⟩ := hint
        have hsb : sig - bn =
            (elasticPredictor mp.young mp.poisson eps - beta) -
              ((2 * shearMod mp.young mp.poisson + 2/3 * mp.kinHardening) * d) •
                flowDirection (elasticPredictor mp.young mp.poisson eps - beta) q := by
          rw [← hsig, ← hbn]
          ext <;> simp <;> ring
        have h3 : 3 * J2inv (sig - bn) = (q - (3 * shearMod mp.young mp.poisson +
            mp.kinHardening) * d)^2 := by
          rw [hsb, vm_after_radial hq.1 (ne_of_gt hqpos)]
          ring
        have hq2eq : q2 = |q - (3 * shearMod mp.young mp.poisson + mp.kinHardening) * d| := by
          refine nonneg_sq_eq_abs hq2.2 ?_
          rw [hq2.1, h3]
        obtain ⟨hres, hcase⟩ := nrLoop_sound (ne_of_gt hpos) iterationCap 0 d hn
        unfold consistencyResidual at hres hcase
        unfold trialYield
        rcases hcase with rfl | hz
        · have hq2q : q2 = q := by
            rw [hq2eq, mul_zero, sub_zero, abs_of_pos hqpos]
          rw [hq2q]
          simpa using hres
        · have hq2y : q2 = mp.yieldStress := by
            rw [hq2eq, show q - (3 * shearMod mp.young mp.poisson + mp.kinHardening) * d =
              mp.yieldStress from by linarith, abs_of_nonneg hsy]
          rw [hq2y]
          simpa using htol

end DeepCAD

namespace DeepCAD

/-- Exact integrated stress of the small-strain test. -/
def sigmaSmallResult : V6 :=
  ⟨-170589050000/9891, -170589050000/9891, -27828050000/1413, 0, 0, 0⟩

/-- Exact plastic multiplier of the small-strain test. -/
def dlamSmall : ℚ := 2603/41212500

/-- Exact committed back-stress of the small-strain test. -/
def betaSmallResult : V6 :=
  ⟨1041200000/3297, 1041200000/3297, -2082400000/3297, 0, 0, 0⟩

/-- Exact integrated stress of the finite-strain test. -/
def sigmaFiniteResult : V6 :=
  ⟨-37906535903/2198, -37906535903/2198, -86571621457/4396, 0, 0, 0⟩

/-- Exact plastic multiplier of the finite-strain test. -/
def dlamFinite : ℚ := 1388183217/21980000000000

/-- Exact committed back-stress of the finite-strain test. -/
def betaFiniteResult : V6 :=
  ⟨1388183217/4396, 1388183217/4396, -1388183217/2198, 0, 0, 0⟩

/-- Helper: exact evaluation of the integrator on the small-strain test. -/
theorem small_strain_eval :
    integrateStressResponse testMatProps 0 testStrainSmall qTrialSmall clTolerance =
      some (sigmaSmallResult, dlamSmall, betaSmallResult) := by
  have hnr : nrLoop (shearMod testMatProps.young testMatProps.poisson)
      testMatProps.kinHardening testMatProps.yieldStress clTolerance qTrialSmall
      iterationCap 0 = some dlamSmall := by
    have h0 : ¬ |consistencyResidual (shearMod testMatProps.young testMatProps.poisson)
        testMatProps.kinHardening testMatProps.yieldStress qTrialSmall 0| < clTolerance := by
      rw [abs_of_pos (by norm_num [consistencyResidual, shearMod, testMatProps, qTrialSmall])]
      norm_num [consistencyResidual, shearMod, testMatProps, qTrialSmall, clTolerance]
    have h := nrLoop_converges 98
      (by norm_num [shearMod, testMatProps]) (by norm_num [clTolerance]) h0
    norm_num [consistencyResidual, shearMod, testMatProps, qTrialSmall, clTolerance,
      dlamSmall, iterationCap] at h ⊢
    exact h
  have hpl : ¬ trialYield qTrialSmall testMatProps.yieldStress ≤ 0 := by
    norm_num [trialYield, testMatProps, qTrialSmall]
  simp only [integrateStressResponse]
  rw [if_neg hpl, hnr]
  simp only [Option.some.injEq, Prod.mk.injEq]
  refine ⟨?_, trivial, ?_⟩ <;> ext <;>
    norm_num [elasticPredictor, flowDirection, devPart, lameLambda, shearMod,
      testMatProps, testStrainSmall, qTrialSmall, dlamSmall, sigmaSmallResult,
      betaSmallResult]

/-- Helper: exact evaluation of the integrator on the finite-strain test. -/
theorem finite_strain_eval :
    integrateStressResponse testMatProps 0 testStrainFinite qTrialFinite clTolerance =
      some (sigmaFiniteResult, dlamFinite, betaFiniteResult) := by
  have hnr : nrLoop (shearMod testMatProps.young testMatProps.poisson)
      testMatProps.kinHardening testMatProps.yieldStress clTolerance qTrialFinite
      iterationCap 0 = some dlamFinite := by
    have h0 : ¬ |consistencyResidual (shearMod testMatProps.young testMatProps.poisson)
        testMatProps.kinHardening testMatProps.yieldStress qTrialFinite 0| < clTolerance := by
      rw [abs_of_pos (by norm_num [consistencyResidual, shearMod, testMatProps, qTrialFinite])]
      norm_num [consistencyResidual, shearMod, testMatProps, qTrialFinite, clTolerance]
    have h := nrLoop_converges 98
      (by norm_num [shearMod, testMatProps]) (by norm_num [clTolerance]) h0
    norm_num [consistencyResidual, shearMod, testMatProps, qTrialFinite, clTolerance,
      dlamFinite, iterationCap] at h ⊢
    exact h
  have hpl : ¬ trialYield qTrialFinite testMatProps.yieldStress ≤ 0 := by
    norm_num [trialYield, testMatProps, qTrialFinite]
  simp only [integrateStressResponse]
  rw [if_neg hpl, hnr]
  simp only [Option.some.injEq, Prod.mk.injEq]
  refine ⟨?_, trivial, ?_⟩ <;> ext <;>
    norm_num [elasticPredictor, flowDirection, devPart, lameLambda, shearMod,
      testMatProps, testStrainFinite, greenStrainDiag, qTrialFinite, dlamFinite,
      sigmaFiniteResult, betaFiniteResult]

end DeepCAD

namespace DeepCAD

/-- Helper: absolute nearness from two-sided bounds. -/
theorem AbsNear_intro {a b t : ℚ} (h1 : b - t ≤ a) (h2 : a ≤ b + t) : AbsNear a b t := by
  unfold AbsNear
  rw [abs_le]
  constructor <;> linarith

/-- Helper: relative nearness to a negative reference from two-sided
bounds. -/
theorem RelNear_intro_neg {a b t : ℚ} (hb : b < 0) (h1 : b + t*b ≤ a) (h2 : a ≤ b - t*b) :
    RelNear a b t := by
  unfold RelNear
  rw [abs_of_neg hb, abs_le]
  constructor <;> linarith

/-- C1: under the uniaxial compressive strain eps_zz = -1.1e-4 with Young
modulus 2.069e11, Poisson ratio 0.29, yield stress 1.5e6, one
CalculateMaterialResponse followed by FinalizeMaterialResponse of the von
Mises kinematic-plasticity law produces the stress vector approximately
[-1.72e7, -1.72e7, -1.97e7, 0, 0, 0], within relative tolerance 1.0e-4 of
the expected small-strain (Cauchy) values and within absolute tolerance
0.1e6 of the expected finite-strain (PK2) values obtained from the
deformation gradient diag(1, 1, 1 - 1.1e-4). -/
theorem vonMises_uniaxial_compression_end_to_end :
    IsVMNorm (elasticPredictor testMatProps.young testMatProps.poisson testStrainSmall - 0)
      qTrialSmall ∧
    IsVMNorm (elasticPredictor testMatProps.young testMatProps.poisson testStrainFinite - 0)
      qTrialFinite ∧
    (∃ stS : InternalState,
      calculateMaterialResponse testMatProps initialState testStrainSmall qTrialSmall
        clTolerance = some (sigmaSmallResult, initialState) ∧
      finalizeMaterialResponse testMatProps initialState testStrainSmall qTrialSmall
        clTolerance 0 = some stS) ∧
    (RelNear sigmaSmallResult.c1 expectedSmall.c1 (1/10000) ∧
     RelNear sigmaSmallResult.c2 expectedSmall.c2 (1/10000) ∧
     RelNear sigmaSmallResult.c3 expectedSmall.c3 (1/10000) ∧
     RelNear sigmaSmallResult.c4 expectedSmall.c4 (1/10000) ∧
     RelNear sigmaSmallResult.c5 expectedSmall.c5 (1/10000) ∧
     RelNear sigmaSmallResult.c6 expectedSmall.c6 (1/10000)) ∧
    (∃ stF : InternalState,
      calculateMaterialResponse testMatProps initialState testStrainFinite qTrialFinite
        clTolerance = some (sigmaFiniteResult, initialState) ∧
      finalizeMaterialResponse testMatProps initialState testStrainFinite qTrialFinite
        clTolerance 0 = some stF) ∧
    (AbsNear sigmaFiniteResult.c1 expectedFinite.c1 100000 ∧
     AbsNear sigmaFiniteResult.c2 expectedFinite.c2 100000 ∧
     AbsNear sigmaFiniteResult.c3 expectedFinite.c3 100000 ∧
     AbsNear sigmaFiniteResult.c4 expectedFinite.c4 100000 ∧
     AbsNear sigmaFiniteResult.c5 expectedFinite.c5 100000 ∧
     AbsNear sigmaFiniteResult.c6 expectedFinite.c6 100000) := by
  have hplS : ¬ trialYield qTrialSmall testMatProps.yieldStress ≤ 0 := by
    norm_num [trialYield, testMatProps, qTrialSmall]
  have hplF : ¬ trialYield qTrialFinite testMatProps.yieldStress ≤ 0 := by
    norm_num [trialYield, testMatProps, qTrialFinite]
  have hbz : initialState.backStress = (0:V6) := rfl
  have hintS : integrateStressResponse testMatProps initialState.backStress testStrainSmall
      qTrialSmall clTolerance = some (sigmaSmallResult, dlamSmall, betaSmallResult) := by
    rw [hbz]; exact small_strain_eval
  have hintF : integrateStressResponse testMatProps initialState.backStress testStrainFinite
      qTrialFinite clTolerance = some (sigmaFiniteResult, dlamFinite, betaFiniteResult) := by
    rw [hbz]; exact finite_strain_eval
  have hcalcS : calculateMaterialResponse testMatProps initialState testStrainSmall
      qTrialSmall clTolerance = some (sigmaSmallResult, initialState) := by
    unfold calculateMaterialResponse
    rw [hintS]
    rfl
  have hcalcF : calculateMaterialResponse testMatProps initialState testStrainFinite
      qTrialFinite clTolerance = some (sigmaFiniteResult, initialState) := by
    unfold calculateMaterialResponse
    rw [hintF]
    rfl
  have hfinS := finalize_plastic_commit testMatProps initialState testStrainSmall qTrialSmall
    clTolerance 0 hplS _ _ _ hintS
  have hfinF := finalize_plastic_commit testMatProps initialState testStrainFinite qTrialFinite
    clTolerance 0 hplF _ _ _ hintF
  refine ⟨⟨?_, ?_⟩, ⟨?_, ?_⟩, ⟨_, hcalcS, hfinS⟩, ⟨?_, ?_, ?_, ?_, ?_, ?_⟩,
    ⟨_, hcalcF, hfinF⟩, ?_, ?_, ?_, ?_, ?_, ?_⟩
  · norm_num [J2inv, devPart, elasticPredictor, lameLambda, shearMod, testMatProps,
      testStrainSmall, qTrialSmall]
  · norm_num [qTrialSmall]
  · norm_num [J2inv, devPart, elasticPredictor, lameLambda, shearMod, testMatProps,
      testStrainFinite, greenStrainDiag, qTrialFinite]
  · norm_num [qTrialFinite]
  · exact RelNear_intro_neg (by norm_num [expectedSmall])
      (by norm_num [sigmaSmallResult, expectedSmall]) (by norm_num [sigmaSmallResult, expectedSmall])
  · exact RelNear_intro_neg (by norm_num [expectedSmall])
      (by norm_num [sigmaSmallResult, expectedSmall]) (by norm_num [sigmaSmallResult, expectedSmall])
  · exact RelNear_intro_neg (by norm_num [expectedSmall])
      (by norm_num [sigmaSmallResult, expectedSmall]) (by norm_num [sigmaSmallResult, expectedSmall])
  · norm_num [RelNear, sigmaSmallResult, expectedSmall]
  · norm_num [RelNear, sigmaSmallResult, expectedSmall]
  · norm_num [RelNear, sigmaSmallResult, expectedSmall]
  · exact AbsNear_intro (by norm_num [sigmaFiniteResult, expectedFinite])
      (by norm_num [sigmaFiniteResult, expectedFinite])
  · exact AbsNear_intro (by norm_num [sigmaFiniteResult, expectedFinite])
      (by norm_num [sigmaFiniteResult, expectedFinite])
  · exact AbsNear_intro (by norm_num [sigmaFiniteResult, expectedFinite])
      (by norm_num [sigmaFiniteResult, expectedFinite])
  · exact AbsNear_intro (by norm_num [sigmaFiniteResult, expectedFinite])
      (by norm_num [sigmaFiniteResult, expectedFinite])
  · exact AbsNear_intro (by norm_num [sigmaFiniteResult, expectedFinite])
      (by norm_num [sigmaFiniteResult, expectedFinite])
  · exact AbsNear_intro (by norm_num [sigmaFiniteResult, expectedFinite])
      (by norm_num [sigmaFiniteResult, expectedFinite])

/-- Witness for C5 at the small-strain test data: the converged correction
puts the updated relative stress exactly on the yield surface. -/
theorem return_mapping_convergence_contract_witness :
    IsVMNorm (elasticPredictor testMatProps.young testMatProps.poisson testStrainSmall - 0)
      qTrialSmall ∧
    ¬ trialYield qTrialSmall testMatProps.yieldStress ≤ 0 ∧
    |trialYield 1500000 testMatProps.yieldStress| < clTolerance := by
  have hq : IsVMNorm (elasticPredictor testMatProps.young testMatProps.poisson
      testStrainSmall - 0) qTrialSmall := by
    constructor
    · norm_num [J2inv, devPart, elasticPredictor, lameLambda, shearMod, testMatProps,
        testStrainSmall, qTrialSmall]
    · norm_num [qTrialSmall]
  have hpl : ¬ trialYield qTrialSmall testMatProps.yieldStress ≤ 0 := by
    norm_num [trialYield, testMatProps, qTrialSmall]
  have hq2 : IsVMNorm (sigmaSmallResult - betaSmallResult) 1500000 := by
    constructor
    · norm_num [J2inv, devPart, sigmaSmallResult, betaSmallResult]
    · norm_num
  have h := return_mapping_convergence_contract testMatProps 0 testStrainSmall qTrialSmall
    clTolerance hq hpl (by norm_num [testMatProps])
    (by norm_num [shearMod, testMatProps]) (by norm_num [clTolerance])
  exact ⟨hq, hpl, h.2.2.2 sigmaSmallResult dlamSmall betaSmallResult small_strain_eval
    1500000 hq2⟩

end DeepCAD

namespace DeepCAD

/-- C8: degenerate geometry and contact short-circuit to well-defined
results instead of dividing by zero: the base-class contact-area overload
returns 0.0; a node at radial distance below 1.0e-6 from the rotation axis
takes the purely axial velocity branch (no zero vector is normalized); and
a failed edge or vertex contact check makes ComputeConditionRelativeData
set ContactType to -1. -/
theorem degenerate_contact_short_circuits :
    (∀ (r o : ℚ) (v : List ℚ), baseCalculateContactArea r o v = 0) ∧
    (∀ (n : V3) (vel omg dist : ℚ) (u1 u2 : V3), dist < 1/1000000 →
      nodeRotationalVelocity n vel omg dist u1 u2 = vel • n) ∧
    (∀ (wIn : List ℚ) (ctIn : ℤ) (eta : ℚ) (vc : Bool), (weightScan wIn).points = 2 →
      (computeConditionRelativeData wIn ctIn false eta vc).contactType = -1) ∧
    (∀ (wIn : List ℚ) (ctIn : ℤ) (eta : ℚ) (ec : Bool), (weightScan wIn).points = 1 →
      (computeConditionRelativeData wIn ctIn ec eta false).contactType = -1) := by
  refine ⟨fun r o v => rfl, fun n vel omg dist u1 u2 h => ?_, ?_, ?_⟩
  · unfold nodeRotationalVelocity
    rw [if_pos h]
  · intro wIn ctIn eta vc h2
    simp [computeConditionRelativeData, h2]
  · intro wIn ctIn eta ec h1
    have hne : (weightScan wIn).points ≠ 2 := by omega
    simp [computeConditionRelativeData, hne, h1]

/-- Witness for C8: a zero-distance node and a single-weight failed vertex
check. -/
theorem degenerate_contact_short_circuits_witness :
    baseCalculateContactArea 2 3 [1] = 0 ∧
    (0:ℚ) < 1/1000000 ∧
    nodeRotationalVelocity ⟨0,0,1⟩ 5 7 0 ⟨1,0,0⟩ ⟨0,1,0⟩ = (5:ℚ) • (⟨0,0,1⟩ : V3) ∧
    (weightScan [1,0,0,0]).points = 1 ∧
    (computeConditionRelativeData [1,0,0,0] 0 true (1/4) false).contactType = -1 := by
  have h := degenerate_contact_short_circuits
  have hd : (0:ℚ) < 1/1000000 := by norm_num
  have hp : (weightScan [(1:ℚ),0,0,0]).points = 1 := by
    norm_num [weightScan, weightScanAux]
  exact ⟨h.1 2 3 [1], hd, h.2.1 ⟨0,0,1⟩ 5 7 0 ⟨1,0,0⟩ ⟨0,1,0⟩ hd,
    hp, h.2.2.2 [1,0,0,0] 0 (1/4) true hp⟩

/-- Counterexample for C10: the weight list [1, 0.5, 0, 0] has exactly two
entries above the 1.0e-12 threshold, yet the early exit of the scanning
loop (the running total reaches 1 after the first entry) selects only one
node, so ContactType becomes 3, not 2, although the edge check reports
contact. -/
theorem two_qualifying_weights_not_edge_contact :
    countQualifying [1, 1/2, 0, 0] = 2 ∧
    (computeConditionRelativeData [1, 1/2, 0, 0] 0 true (1/4) true).contactType = 3 ∧
    ¬ (computeConditionRelativeData [1, 1/2, 0, 0] 0 true (1/4) true).contactType = 2 := by
  refine ⟨?_, ?_, ?_⟩
  · norm_num [countQualifying]
  · norm_num [computeConditionRelativeData, weightScan, weightScanAux]
  · norm_num [computeConditionRelativeData, weightScan, weightScanAux]

end DeepCAD

namespace DeepCAD

/-- Helper: the scanning loop keeps the recorded node indices strictly
increasing and within the scanned range. -/
theorem weightScanAux_indices :
    ∀ (ws : List ℚ) (idx : ℕ) (st : ScanState),
      (st.points = 1 → st.inode1 < idx) →
      (2 ≤ st.points → st.inode1 < st.inode2 ∧ st.inode2 < idx) →
      ((weightScanAux ws idx st).points = 1 →
        (weightScanAux ws idx st).inode1 < idx + ws.length) ∧
      (2 ≤ (weightScanAux ws idx st).points →
        (weightScanAux ws idx st).inode1 < (weightScanAux ws idx st).inode2 ∧
        (weightScanAux ws idx st).inode2 < idx + ws.length) := by
  intro ws
  induction ws with
  | nil =>
      intro idx st h1 h2
      simp only [weightScanAux, List.length_nil, Nat.add_zero]
      exact ⟨h1, h2⟩
  | cons w rest ih =>
      intro idx st h1 h2
      simp only [weightScanAux]
      set s1 : ScanState :=
        if 1/1000000000000 < w then
          ⟨st.total + w, st.points + 1, if st.points + 1 = 1 then idx else st.inode1,
           if st.points + 1 = 2 then idx else st.inode2⟩
        else st with hs1
      have hs1a : s1.points = 1 → s1.inode1 < idx + 1 := by
        rw [hs1]
        split
        · by_cases h0 : st.points = 0
          · simp [h0]
          · intro hp
            simp only at hp
            omega
        · intro hp
          exact Nat.lt_succ_of_lt (h1 hp)
      have hs1b : 2 ≤ s1.points → s1.inode1 < s1.inode2 ∧ s1.inode2 < idx + 1 := by
        rw [hs1]
        split
        · by_cases h0 : st.points = 0
          · simp [h0]
          · by_cases hp1 : st.points = 1
            · intro _
              simp only [hp1]
              norm_num
              exact h1 hp1
            · intro hp
              simp only at hp ⊢
              have h2le : 2 ≤ st.points := by omega
              have := h2 h2le
              constructor
              · rw [if_neg (by omega), if_neg (by omega)]
                exact this.1
              · rw [if_neg (by omega)]
                omega
        · intro hp
          obtain ⟨ha, hb⟩ := h2 hp
          exact ⟨ha, Nat.lt_succ_of_lt hb⟩
      by_cases hb : |s1.total - 1| < 1/1000000000000
      · rw [if_pos hb]
        simp only [List.length_cons]
        constructor
        · intro hp
          have := hs1a hp
          omega
        · intro hp
          obtain ⟨ha, hbb⟩ := hs1b hp
          exact ⟨ha, by omega⟩
      · rw [if_neg hb]
        have := ih (idx + 1) s1 hs1a hs1b
        simp only [List.length_cons]
        constructor
        · intro hp
          have := this.1 hp
          omega
        · intro hp
          obtain ⟨ha, hbb⟩ := this.2 hp
          exact ⟨ha, by omega⟩

/-- Helper: the indices recorded by the full weight scan are strictly
increasing and within range when two nodes are selected, and within range
when one is selected. -/
theorem weightScan_indices (ws : List ℚ) :
    ((weightScan ws).points = 1 → (weightScan ws).inode1 < ws.length) ∧
    ((weightScan ws).points = 2 →
      (weightScan ws).inode1 < (weightScan ws).inode2 ∧ (weightScan ws).inode2 < ws.length) := by
  have h := weightScanAux_indices ws 0 ⟨0, 0, 0, 0⟩ (by intro h; simp at h) (by intro h; simp at h)
  unfold weightScan
  simp only [Nat.zero_add] at h
  exact ⟨h.1, fun h2 => h.2 (by omega)⟩

/-- C10 (amended): after ComputeConditionRelativeData, if the scanning loop
(which accumulates weights above 1.0e-12 and stops early once the running
total reaches 1 within 1.0e-12) selected exactly two nodes, the two
selected node weights are set to 1-eta and eta (so they sum to 1) and
ContactType is 2; if it selected exactly one node, that node weight is set
to 1.0 and ContactType is 3; and in either case a failed geometric check
sets ContactType to -1. -/
theorem relative_data_selected_weights (wIn : List ℚ) (ctIn : ℤ) (ec : Bool) (eta : ℚ)
    (vc : Bool) :
    ((weightScan wIn).points = 2 →
      ((computeConditionRelativeData wIn ctIn ec eta vc).weights.getD
          (weightScan wIn).inode1 0 = 1 - eta ∧
       (computeConditionRelativeData wIn ctIn ec eta vc).weights.getD
          (weightScan wIn).inode2 0 = eta ∧
       (1 - eta) + eta = 1 ∧
       (ec = true → (computeConditionRelativeData wIn ctIn ec eta vc).contactType = 2) ∧
       (ec = false → (computeConditionRelativeData wIn ctIn ec eta vc).contactType = -1))) ∧
    ((weightScan wIn).points = 1 →
      ((computeConditionRelativeData wIn ctIn ec eta vc).weights.getD
          (weightScan wIn).inode1 0 = 1 ∧
       (vc = true → (computeConditionRelativeData wIn ctIn ec eta vc).contactType = 3) ∧
       (vc = false → (computeConditionRelativeData wIn ctIn ec eta vc).contactType = -1))) := by
  constructor
  · intro h2
    obtain ⟨hlt, hlen⟩ := (weightScan_indices wIn).2 h2
    have hres : computeConditionRelativeData wIn ctIn ec eta vc =
        { weights := (wIn.set (weightScan wIn).inode1 (1-eta)).set (weightScan wIn).inode2 eta,
          contactType := if ec then 2 else -1 } := by
      simp [computeConditionRelativeData, h2]
    rw [hres]
    have hlen1 : (weightScan wIn).inode2 < (wIn.set (weightScan wIn).inode1 (1-eta)).length := by
      simpa using hlen
    refine ⟨?_, ?_, by ring, ?_, ?_⟩
    · rw [List.getD_eq_getElem?_getD, List.getElem?_set_ne (by omega),
        ← List.getD_eq_getElem?_getD, List.getD_eq_getElem?_getD,
        List.getElem?_set_eq_of_lt _ (by omega), Option.getD_some]
    · rw [List.getD_eq_getElem?_getD, List.getElem?_set_eq_of_lt _ hlen1, Option.getD_some]
    · intro he; simp [he]
    · intro he; simp [he]
  · intro h1
    have hlen : (weightScan wIn).inode1 < wIn.length := (weightScan_indices wIn).1 h1
    have hne : (weightScan wIn).points ≠ 2 := by omega
    have hres : computeConditionRelativeData wIn ctIn ec eta vc =
        { weights := wIn.set (weightScan wIn).inode1 1,
          contactType := if vc then 3 else -1 } := by
      simp [computeConditionRelativeData, hne, h1]
    rw [hres]
    refine ⟨?_, ?_, ?_⟩
    · rw [List.getD_eq_getElem?_getD, List.getElem?_set_eq_of_lt _ hlen, Option.getD_some]
    · intro hv; simp [hv]
    · intro hv; simp [hv]

/-- Witness for C10 (amended): equal weights one half and one half select
two nodes without early exit before the second. -/
theorem relative_data_selected_weights_witness :
    (weightScan [(1:ℚ)/2, 1/2]).points = 2 ∧
    (computeConditionRelativeData [(1:ℚ)/2, 1/2] 0 true (1/4) true).weights.getD 0 0 = 3/4 ∧
    (computeConditionRelativeData [(1:ℚ)/2, 1/2] 0 true (1/4) true).weights.getD 1 0 = 1/4 ∧
    (computeConditionRelativeData [(1:ℚ)/2, 1/2] 0 true (1/4) true).contactType = 2 := by
  have habs : |(1:ℚ)/2| = 1/2 := by
    rw [abs_of_pos]
    norm_num
  have hp : (weightScan [(1:ℚ)/2, 1/2]).points = 2 := by
    norm_num [weightScan, weightScanAux, habs]
  have hi1 : (weightScan [(1:ℚ)/2, 1/2]).inode1 = 0 := by
    norm_num [weightScan, weightScanAux, habs]
  have hi2 : (weightScan [(1:ℚ)/2, 1/2]).inode2 = 1 := by
    norm_num [weightScan, weightScanAux, habs]
  have h := (relative_data_selected_weights [(1:ℚ)/2, 1/2] 0 true (1/4) true).1 hp
  rw [hi1, hi2] at h
  refine ⟨hp, ?_, ?_, h.2.2.2.1 rfl⟩
  · rw [h.1]; norm_num
  · rw [h.2.1]

end DeepCAD

namespace DeepCAD

/-- Helper: the DoF transform of BaseSetUpSystem never changes the node or
the variable of a dof. -/
theorem setUpTransformDof_preserves (dofs : List Dof) (d : Dof) :
    (setUpTransformDof dofs d).node = d.node ∧ (setUpTransformDof dofs d).dvar = d.dvar := by
  unfold setUpTransformDof
  split <;> exact ⟨rfl, rfl⟩

/-- C9: after the DoF-fixing pass of BaseSetUpSystem, at every node owning
Lagrange-multiplier dofs, a fixed displacement dof in some direction forces
the Lagrange-multiplier dof of the same direction at that node to be fixed;
and dofs at nodes without Lagrange-multiplier dofs are never modified (in
particular never newly fixed) by the pass. -/
theorem lm_dof_fixing_consistency (dofs : List Dof) :
    baseSetUpSystem dofs = dofs.map (setUpTransformDof dofs) ∧
    (∀ (n : ℕ) (dv lv : DofVariable), lmKeyOfDisp dv = some lv →
      (∃ dd ∈ dofs, dd.node = n ∧ dd.dvar = dv ∧ dd.isFixed = true) →
      ∀ d2 ∈ baseSetUpSystem dofs, d2.node = n → d2.dvar = lv → d2.isFixed = true) ∧
    (∀ d ∈ dofs, nodeHasLM dofs d.node = false → setUpTransformDof dofs d = d) := by
  refine ⟨rfl, ?_, ?_⟩
  · rintro n dv lv hlv ⟨dd, hddmem, hddn, hddv, hddf⟩ d2 hd2 hn2 hv2
    obtain ⟨d, hdmem, rfl⟩ := List.mem_map.mp hd2
    obtain ⟨hpn, hpv⟩ := setUpTransformDof_preserves dofs d
    have hnode : d.node = n := by rw [← hpn]; exact hn2
    have hdvar : d.dvar = lv := by rw [← hpv]; exact hv2
    by_cases hf : d.isFixed
    · unfold setUpTransformDof
      split <;> simp [hf]
    · have hLM : isLMVariable lv = true := by
        cases dv <;> simp only [lmKeyOfDisp] at hlv
        · rw [← Option.some.inj hlv]; rfl
        · rw [← Option.some.inj hlv]; rfl
        · rw [← Option.some.inj hlv]; rfl
        · exact Option.noConfusion hlv
        · exact Option.noConfusion hlv
        · exact Option.noConfusion hlv
        · exact Option.noConfusion hlv
      have hhas : nodeHasLM dofs d.node = true := by
        rw [nodeHasLM, List.any_eq_true]
        refine ⟨d, hdmem, ?_⟩
        simp [hdvar, hLM]
      have hmark : lmKeyMarked dofs d.node d.dvar = true := by
        rw [lmKeyMarked, List.any_eq_true]
        refine ⟨dd, hddmem, ?_⟩
        simp [hddn, hnode, hddf, hddv, hlv, hdvar]
      unfold setUpTransformDof
      rw [if_pos (by simp [hf, hhas, hmark])]
  · intro d hd hno
    unfold setUpTransformDof
    rw [if_neg (by simp [hno])]

/-- Concrete dof set for the witness: node 1 owns a Lagrange-multiplier dof
and a fixed displacement dof; node 2 owns no Lagrange-multiplier dof. -/
def dofsExample : List Dof :=
  [⟨1, .dispX, true⟩, ⟨1, .lmX, false⟩, ⟨2, .dispY, true⟩]

/-- Witness for C9 on the concrete dof set. -/
theorem lm_dof_fixing_consistency_witness :
    (setUpTransformDof dofsExample ⟨1, DofVariable.lmX, false⟩).isFixed = true ∧
    setUpTransformDof dofsExample ⟨2, DofVariable.dispY, true⟩ =
      ⟨2, DofVariable.dispY, true⟩ := by
  have h := lm_dof_fixing_consistency dofsExample
  constructor
  · refine h.2.1 1 .dispX .lmX rfl
      ⟨⟨1, .dispX, true⟩, by simp [dofsExample], rfl, rfl, rfl⟩
      (setUpTransformDof dofsExample ⟨1, .lmX, false⟩) ?_ ?_ ?_
    · exact List.mem_map_of_mem _ (by simp [dofsExample])
    · decide
    · decide
  · exact h.2.2 ⟨2, .dispY, true⟩ (by simp [dofsExample]) (by decide)

end DeepCAD
